import Mathlib

/-!
Verification of the Position Aggregation & Classification Engine of the
hedge-book blotter: a shallow embedding of the pure logic (expiry bucketing,
asset-type classification, spread consolidation, filtering, basis-point
normalization, rollup building) together with proofs of the spec's claims.

Money amounts are modelled as exact rationals (`Rat`); optional fields of a
position row are `Option`-valued; JavaScript string truthiness is modelled
explicitly (the empty string is falsy).
-/

namespace Blotter

/-! ### String utilities

`strIncludes s sub` models JavaScript `s.includes(sub)`; case handling is done
by the callers via `strUpper` / `strLower`, exactly as the source calls
`.toUpperCase()` / `.toLowerCase()`. -/

/-- Does the character list `p` occur as a prefix of `s`? -/
def hasPrefixL : List Char → List Char → Bool
  | [], _ => true
  | _ :: _, [] => false
  | p :: ps, c :: cs => p == c && hasPrefixL ps cs

/-- Does `sub` occur as a contiguous sublist of `s`? -/
def containsSubAux (sub : List Char) : List Char → Bool
  | [] => hasPrefixL sub []
  | c :: cs => hasPrefixL sub (c :: cs) || containsSubAux sub cs

/-- JS `s.includes(sub)`: substring containment. -/
def strIncludes (s sub : String) : Bool := containsSubAux sub.data s.data

/-- JS `s.toUpperCase()`, character-wise (the engine only uppercases ASCII
marker text). -/
def strUpper (s : String) : String := ⟨s.data.map Char.toUpper⟩

/-- JS `s.toLowerCase()`, character-wise. -/
def strLower (s : String) : String := ⟨s.data.map Char.toLower⟩

/-! ### Data model

`AggRow` mirrors the fields of the `AggRow` interface in
`frontend/src/api/types.ts` that the engine's pure functions read.  All fields
except `manual_flag` are optional in the source (`?` / `| null`), modelled as
`Option`. -/

/-- One position row of the hedge book (the engine-relevant fields of the
source's `AggRow`). -/
structure AggRow where
  portfolio : Option String := none
  strategy : Option String := none
  investment_id : Option String := none
  investment_description : Option String := none
  manual_flag : Bool := false
  hedge_label : Option String := none
  hedge_family : Option String := none
  long_mv : Option Rat := none
  short_mv : Option Rat := none
  mv_ssc_usd : Option Rat := none
  pnl_1d_usd : Option Rat := none
  pnl_mtd_usd : Option Rat := none
  dv01_usd : Option Rat := none
  cs01_usd : Option Rat := none
  beta_spx : Option Rat := none
  delta_spx : Option Rat := none
  vega_spx : Option Rat := none
  pretty_name : Option String := none
  underlying_type : Option String := none
  underlying_symbol : Option String := none
  expiry : Option String := none
  notional_usd : Option Rat := none
  spread_id : Option String := none
  spread_name : Option String := none
  is_spread_leg : Option Bool := none
  deriving Repr, DecidableEq

/-- A row with every optional field absent. -/
def emptyRow : AggRow := {}

/-! ### Expiry classification (`chartUtils.getExpiryBucket`)

The source parses the expiry string with `dayjs` and takes the whole-day
difference to today.  Following the spec's own design note ("abstract the
clock as an explicit parameter"), date parsing plus day-difference is injected
as a parameter `parse : String → Option Int`: `parse s = none` models an
invalid `dayjs` parse, `parse s = some d` models a valid parse whose
`diff(today, 'day')` is `d`. -/

inductive ExpiryBucket where
  | b0_3M | b3_6M | b6_12M | b12Mplus
  deriving Repr, DecidableEq

/-- `getExpiryBucket` from `chartUtils`: JS falsiness of the string argument
(`!expiryDate`) rejects both an absent expiry and the empty string; an invalid
parse rejects; a negative whole-day difference (already expired) rejects; then
inclusive upper bounds 90/180/365 select the bucket. -/
def getExpiryBucket (parse : String → Option Int) :
    Option String → Option ExpiryBucket
  | none => none
  | some s =>
      if s = "" then none
      else
        match parse s with
        | none => none
        | some daysUntilExpiry =>
            if daysUntilExpiry < 0 then none
            else if daysUntilExpiry ≤ 90 then some .b0_3M
            else if daysUntilExpiry ≤ 180 then some .b3_6M
            else if daysUntilExpiry ≤ 365 then some .b6_12M
            else some .b12Mplus

/-! ### Bucket aggregation (`chartUtils.aggregateByExpiryBucket`) -/

structure ExpiryBucketData where
  bucket : ExpiryBucket
  marketValue : Rat
  count : Nat
  displayOrder : Nat
  deriving Repr, DecidableEq

/-- The bucket map state: all four buckets are initialized upfront in the
source, so the map is total over `ExpiryBucket`. -/
def bucketStep (parse : String → Option Int)
    (m : ExpiryBucket → Rat × Nat) (position : AggRow) :
    ExpiryBucket → Rat × Nat :=
  match getExpiryBucket parse position.expiry, position.mv_ssc_usd with
  | some bucket, some mv =>
      fun b => if b = bucket then ((m b).1 + mv, (m b).2 + 1) else m b
  | _, _ => m

def displayOrderOf : ExpiryBucket → Nat
  | .b0_3M => 1
  | .b3_6M => 2
  | .b6_12M => 3
  | .b12Mplus => 4

/-- `aggregateByExpiryBucket`: fold all positions into the initialized bucket
map, then emit the four buckets in fixed order with their display order. -/
def aggregateByExpiryBucket (parse : String → Option Int)
    (positions : List AggRow) : List ExpiryBucketData :=
  let m := positions.foldl (bucketStep parse) (fun _ => (0, 0))
  [ExpiryBucket.b0_3M, .b3_6M, .b6_12M, .b12Mplus].map fun bucket =>
    { bucket := bucket
      marketValue := (m bucket).1
      count := (m bucket).2
      displayOrder := displayOrderOf bucket }

/-- Reference predicate: a row contributes to the ladder iff its expiry
classifies and its market value is defined. -/
def contributes (parse : String → Option Int) (p : AggRow) : Bool :=
  (getExpiryBucket parse p.expiry).isSome && p.mv_ssc_usd.isSome

/-- Reference predicate: a row contributes to bucket `b`. -/
def contributesTo (parse : String → Option Int) (b : ExpiryBucket)
    (p : AggRow) : Bool :=
  decide (getExpiryBucket parse p.expiry = some b) && p.mv_ssc_usd.isSome

/-- Sum of the (signed) market values of the rows contributing to bucket `b`. -/
def bucketMVSum (parse : String → Option Int) (positions : List AggRow)
    (b : ExpiryBucket) : Rat :=
  ((positions.filter (contributesTo parse b)).map
    (fun p => p.mv_ssc_usd.getD 0)).sum

/-- Number of rows contributing to bucket `b`. -/
def bucketCount (parse : String → Option Int) (positions : List AggRow)
    (b : ExpiryBucket) : Nat :=
  (positions.filter (contributesTo parse b)).length

/-! ### Lemmas about the bucket fold -/

theorem bucketFold_apply (parse : String → Option Int) (positions : List AggRow)
    (m₀ : ExpiryBucket → Rat × Nat) (b : ExpiryBucket) :
    (positions.foldl (bucketStep parse) m₀) b =
      ((m₀ b).1 + bucketMVSum parse positions b,
       (m₀ b).2 + bucketCount parse positions b) := by
  induction positions generalizing m₀ with
  | nil => simp [bucketMVSum, bucketCount]
  | cons p ps ih =>
    simp only [List.foldl_cons]
    rw [ih]
    unfold bucketStep
    cases hb : getExpiryBucket parse p.expiry with
    | none =>
        simp [bucketMVSum, bucketCount, contributesTo, List.filter_cons, hb]
    | some b' =>
        cases hmv : p.mv_ssc_usd with
        | none =>
            simp [bucketMVSum, bucketCount, contributesTo, List.filter_cons,
              hb, hmv]
        | some mv =>
            by_cases hbb : b = b'
            · subst hbb
              simp [bucketMVSum, bucketCount, contributesTo, List.filter_cons,
                hb, hmv]
              constructor
              · ring
              · omega
            · simp [bucketMVSum, bucketCount, contributesTo, List.filter_cons,
                hb, hmv, hbb, Ne.symm hbb]

theorem bucketCount_partition (parse : String → Option Int)
    (positions : List AggRow) :
    bucketCount parse positions .b0_3M + bucketCount parse positions .b3_6M +
      bucketCount parse positions .b6_12M +
      bucketCount parse positions .b12Mplus =
      (positions.filter (contributes parse)).length := by
  induction positions with
  | nil => simp [bucketCount]
  | cons p ps ih =>
    cases hb : getExpiryBucket parse p.expiry with
    | none =>
        simpa [bucketCount, contributes, contributesTo, List.filter_cons, hb]
          using ih
    | some b' =>
        cases hmv : p.mv_ssc_usd with
        | none =>
            simpa [bucketCount, contributes, contributesTo, List.filter_cons,
              hb, hmv] using ih
        | some mv =>
            cases b' <;>
              · simp [bucketCount, contributes, contributesTo,
                  List.filter_cons, hb, hmv] at ih ⊢
                omega

/-- C1: `aggregateByExpiryBucket` returns exactly the four buckets in fixed
order `0-3M, 3-6M, 6-12M, 12M+` with display orders 1–4, each entry carrying
the signed market-value sum and the count of the rows that classify into that
bucket and have a defined market value (so an empty bucket appears with
marketValue 0 and count 0, and a row with an undefined market value or an
unclassifiable expiry contributes to neither); moreover the four counts sum to
the number of contributing rows. -/
theorem aggregateByExpiryBucket_spec (parse : String → Option Int)
    (positions : List AggRow) :
    aggregateByExpiryBucket parse positions =
      [⟨.b0_3M, bucketMVSum parse positions .b0_3M,
          bucketCount parse positions .b0_3M, 1⟩,
       ⟨.b3_6M, bucketMVSum parse positions .b3_6M,
          bucketCount parse positions .b3_6M, 2⟩,
       ⟨.b6_12M, bucketMVSum parse positions .b6_12M,
          bucketCount parse positions .b6_12M, 3⟩,
       ⟨.b12Mplus, bucketMVSum parse positions .b12Mplus,
          bucketCount parse positions .b12Mplus, 4⟩] ∧
    bucketCount parse positions .b0_3M + bucketCount parse positions .b3_6M +
      bucketCount parse positions .b6_12M +
      bucketCount parse positions .b12Mplus =
      (positions.filter (contributes parse)).length := by
  refine ⟨?_, bucketCount_partition parse positions⟩
  simp only [aggregateByExpiryBucket, List.map]
  rw [bucketFold_apply, bucketFold_apply, bucketFold_apply, bucketFold_apply]
  simp [displayOrderOf]

/-- Evaluation of `getExpiryBucket` on a non-empty string with a successful
parse. -/
theorem getExpiryBucket_eval (parse : String → Option Int) (s : String)
    (hs : s ≠ "") (d : Int) (hp : parse s = some d) :
    getExpiryBucket parse (some s) =
      if d < 0 then none
      else if d ≤ 90 then some .b0_3M
      else if d ≤ 180 then some .b3_6M
      else if d ≤ 365 then some .b6_12M
      else some .b12Mplus := by
  simp only [getExpiryBucket, if_neg hs, hp]

/-- C2: `getExpiryBucket` (the `classifyExpiry` of the spec) returns `none`
for an absent or unparsable expiry, `none` for a negative whole-day
difference, and otherwise buckets by inclusive upper bounds 90/180/365; in
particular 90 days gives `0-3M` and 95 days gives `3-6M`. -/
theorem getExpiryBucket_spec (parse : String → Option Int) (s : String)
    (d : Int) (hs : s ≠ "") :
    getExpiryBucket parse none = none ∧
    (parse s = none → getExpiryBucket parse (some s) = none) ∧
    (parse s = some d → d < 0 → getExpiryBucket parse (some s) = none) ∧
    (parse s = some d → 0 ≤ d → d ≤ 90 →
      getExpiryBucket parse (some s) = some .b0_3M) ∧
    (parse s = some d → 90 < d → d ≤ 180 →
      getExpiryBucket parse (some s) = some .b3_6M) ∧
    (parse s = some d → 180 < d → d ≤ 365 →
      getExpiryBucket parse (some s) = some .b6_12M) ∧
    (parse s = some d → 365 < d →
      getExpiryBucket parse (some s) = some .b12Mplus) ∧
    (parse s = some 90 → getExpiryBucket parse (some s) = some .b0_3M) ∧
    (parse s = some 95 → getExpiryBucket parse (some s) = some .b3_6M) := by
  refine ⟨rfl, ?_, ?_, ?_, ?_, ?_, ?_, ?_, ?_⟩
  · intro hp; simp only [getExpiryBucket, if_neg hs, hp]
  · intro hp hneg
    rw [getExpiryBucket_eval parse s hs d hp, if_pos hneg]
  · intro hp h0 h90
    rw [getExpiryBucket_eval parse s hs d hp, if_neg (by omega), if_pos h90]
  · intro hp h90 h180
    rw [getExpiryBucket_eval parse s hs d hp, if_neg (by omega),
      if_neg (by omega), if_pos h180]
  · intro hp h180 h365
    rw [getExpiryBucket_eval parse s hs d hp, if_neg (by omega),
      if_neg (by omega), if_neg (by omega), if_pos h365]
  · intro hp h365
    rw [getExpiryBucket_eval parse s hs d hp, if_neg (by omega),
      if_neg (by omega), if_neg (by omega), if_neg (by omega)]
  · intro hp
    rw [getExpiryBucket_eval parse s hs 90 hp]
    norm_num
  · intro hp
    rw [getExpiryBucket_eval parse s hs 95 hp, if_neg (by omega),
      if_neg (by omega), if_pos (by omega)]

/-- Witness for C2 at concrete inputs: a reference-date/parse function sending
"A" to 90 days out and "B" to 95 days out classifies "A" as `0-3M` and "B" as
`3-6M`. -/
theorem getExpiryBucket_spec_witness :
    getExpiryBucket
        (fun s => if s = "A" then some 90 else if s = "B" then some 95
          else none) (some "A") = some ExpiryBucket.b0_3M ∧
    getExpiryBucket
        (fun s => if s = "A" then some 90 else if s = "B" then some 95
          else none) (some "B") = some ExpiryBucket.b3_6M := by
  constructor
  · exact (getExpiryBucket_spec
      (fun s => if s = "A" then some 90 else if s = "B" then some 95 else none)
      "A" 90 (by decide)).2.2.2.2.2.2.2.1 (by decide)
  · exact (getExpiryBucket_spec
      (fun s => if s = "A" then some 90 else if s = "B" then some 95 else none)
      "B" 95 (by decide)).2.2.2.2.2.2.2.2 (by decide)

/-! ### Asset-type classification (`chartUtils.getAssetType`) -/

/-- `getAssetType` from `chartUtils`: the ordered, short-circuiting rule chain
on the uppercased underlying symbol and type (JS `?.toUpperCase() || ''`). -/
def getAssetType (position : AggRow) : String :=
  let symbol := strUpper (position.underlying_symbol.getD "")
  let type := strUpper (position.underlying_type.getD "")
  if strIncludes symbol "CDX IG" || strIncludes symbol "CDX.IG" then "IG"
  else if strIncludes symbol "CDX HY" || strIncludes symbol "CDX.HY" ||
      strIncludes symbol "HYG" then "HY"
  else if strIncludes symbol "SPY" || strIncludes symbol "SPX" ||
      strIncludes symbol "S&P" then "SPY"
  else if strIncludes type "CREDIT" then
    if strIncludes symbol "IG" then "IG"
    else if strIncludes symbol "HY" then "HY"
    else "Credit (Other)"
  else if strIncludes type "EQUITY" then "Equity (Other)"
  else "Other"

/-- Case-insensitive containment, as the spec words it. -/
def ciContains (s sub : String) : Bool := strIncludes (strUpper s) (strUpper sub)

/-- `classifyAssetType` as the spec's §4.1 rule list words it: six ordered
rules with case-insensitive matching on the raw `underlying_symbol` and
`underlying_type`, first match wins. -/
def classifyAssetTypeSpec (p : AggRow) : String :=
  let symbol := p.underlying_symbol.getD ""
  let type := p.underlying_type.getD ""
  if ciContains symbol "CDX IG" || ciContains symbol "CDX.IG" then "IG"
  else if ciContains symbol "CDX HY" || ciContains symbol "CDX.HY" ||
      ciContains symbol "HYG" then "HY"
  else if ciContains symbol "SPY" || ciContains symbol "SPX" ||
      ciContains symbol "S&P" then "SPY"
  else if ciContains type "CREDIT" then
    if ciContains symbol "IG" then "IG"
    else if ciContains symbol "HY" then "HY"
    else "Credit (Other)"
  else if ciContains type "EQUITY" then "Equity (Other)"
  else "Other"

/-! ### Generic insertion-ordered association lists

JS `Map` and plain-object records preserve insertion order of keys; both are
modelled as association lists where `setA` updates in place or appends. -/

def lookupA {K β : Type} [DecidableEq K] : List (K × β) → K → Option β
  | [], _ => none
  | (k', v) :: l, k => if k' = k then some v else lookupA l k

def setA {K β : Type} [DecidableEq K] : List (K × β) → K → β → List (K × β)
  | [], k, v => [(k, v)]
  | (k', v') :: l, k, v =>
      if k' = k then (k, v) :: l else (k', v') :: setA l k v

theorem lookupA_setA_self {K β : Type} [DecidableEq K]
    (l : List (K × β)) (k : K) (v : β) : lookupA (setA l k v) k = some v := by
  induction l with
  | nil => simp [setA, lookupA]
  | cons kv l ih =>
      obtain ⟨k', v'⟩ := kv
      by_cases h : k' = k
      · simp [setA, lookupA, h]
      · simp [setA, lookupA, h, ih]

theorem lookupA_setA_ne {K β : Type} [DecidableEq K]
    (l : List (K × β)) (k k₂ : K) (v : β) (h : k ≠ k₂) :
    lookupA (setA l k v) k₂ = lookupA l k₂ := by
  induction l with
  | nil => simp [setA, lookupA, h]
  | cons kv l ih =>
      obtain ⟨k', v'⟩ := kv
      by_cases hk : k' = k
      · subst hk
        simp [setA, lookupA, h]
      · simp [setA, lookupA, hk, ih]

theorem keys_setA {K β : Type} [DecidableEq K]
    (l : List (K × β)) (k : K) (v : β) :
    (setA l k v).map Prod.fst =
      if (lookupA l k).isSome then l.map Prod.fst
      else l.map Prod.fst ++ [k] := by
  induction l with
  | nil => simp [setA, lookupA]
  | cons kv l ih =>
      obtain ⟨k', v'⟩ := kv
      by_cases h : k' = k
      · simp [setA, lookupA, h]
      · simp only [setA, lookupA, if_neg h, List.map_cons, ih]
        by_cases h2 : (lookupA l k).isSome <;> simp [h2]

theorem mem_lookupA {K β : Type} [DecidableEq K]
    (l : List (K × β)) (k : K) (v : β)
    (hnd : (l.map Prod.fst).Nodup) (hm : (k, v) ∈ l) :
    lookupA l k = some v := by
  induction l with
  | nil => simp at hm
  | cons kv l ih =>
      obtain ⟨k', v'⟩ := kv
      simp only [List.map_cons, List.nodup_cons] at hnd
      rcases List.mem_cons.mp hm with h | h
      · cases h
        simp [lookupA]
      · have hne : k' ≠ k := by
          rintro rfl
          exact hnd.1 (List.mem_map.mpr ⟨(k', v), h, rfl⟩)
        simp [lookupA, hne, ih hnd.2 h]

/-! ### Asset-type aggregation (`chartUtils.aggregateByAssetType`) -/

structure AssetTypeData where
  assetType : String
  marketValue : Rat
  percentage : Rat
  color : String
  deriving Repr, DecidableEq

/-- The fixed color lookup with fallback `#6b7280`. -/
def colorOf (assetType : String) : String :=
  if assetType = "IG" then "#14b8a6"
  else if assetType = "HY" then "#0d9488"
  else if assetType = "SPY" then "#2dd4bf"
  else if assetType = "Credit (Other)" then "#5eead4"
  else if assetType = "Equity (Other)" then "#99f6e4"
  else if assetType = "Other" then "#6b7280"
  else "#6b7280"

/-- One step of the source's `forEach`: a position with a defined market value
adds the absolute value of its market value to its category's running sum (JS
`assetMap.get(t) || 0`) and to the running gross total. -/
def assetStep (acc : List (String × Rat) × Rat) (position : AggRow) :
    List (String × Rat) × Rat :=
  match position.mv_ssc_usd with
  | none => acc
  | some mv =>
      let assetType := getAssetType position
      let currentMV := (lookupA acc.1 assetType).getD 0
      (setA acc.1 assetType (currentMV + |mv|), acc.2 + |mv|)

/-- Stable insertion into a list sorted by `marketValue` descending; the new
element goes before strictly-smaller entries and after earlier equal ones,
modelling JS's stable `sort((a, b) => b.marketValue - a.marketValue)`. -/
def insertByMVDesc (x : AssetTypeData) :
    List AssetTypeData → List AssetTypeData
  | [] => [x]
  | y :: ys =>
      if y.marketValue ≤ x.marketValue then x :: y :: ys
      else y :: insertByMVDesc x ys

def sortByMVDesc (l : List AssetTypeData) : List AssetTypeData :=
  l.foldr insertByMVDesc []

/-- `aggregateByAssetType`: fold positions into the per-category gross sums,
then emit entries with percentage of total and color, sorted by market value
descending. -/
def aggregateByAssetType (positions : List AggRow) : List AssetTypeData :=
  let acc := positions.foldl assetStep ([], 0)
  let totalMV := acc.2
  sortByMVDesc (acc.1.map fun kv =>
    { assetType := kv.1
      marketValue := kv.2
      percentage := if 0 < totalMV then kv.2 / totalMV * 100 else 0
      color := colorOf kv.1 })

/-- Gross total: sum of |market value| over rows with a defined market
value. -/
def grossTotal (positions : List AggRow) : Rat :=
  ((positions.filter fun p => p.mv_ssc_usd.isSome).map
    fun p => |p.mv_ssc_usd.getD 0|).sum

/-- Per-category gross sum over rows with a defined market value classified
into category `t`. -/
def catSum (positions : List AggRow) (t : String) : Rat :=
  ((positions.filter fun p =>
      p.mv_ssc_usd.isSome && decide (getAssetType p = t)).map
    fun p => |p.mv_ssc_usd.getD 0|).sum

/-! ### Lemmas about the asset fold and sort -/

/-- Reference predicate: some row with a defined market value classifies into
category `t`. -/
def hasCat (positions : List AggRow) (t : String) : Bool :=
  positions.any fun p => p.mv_ssc_usd.isSome && decide (getAssetType p = t)

theorem lookupA_eq_none {K β : Type} [DecidableEq K]
    (l : List (K × β)) (k : K) :
    lookupA l k = none ↔ k ∉ l.map Prod.fst := by
  induction l with
  | nil => simp [lookupA]
  | cons kv l ih =>
      obtain ⟨k', v'⟩ := kv
      by_cases h : k' = k
      · subst h
        simp [lookupA]
      · simp only [lookupA, if_neg h, List.map_cons, List.mem_cons, not_or, ih]
        have hne : ¬k = k' := fun hkk => h hkk.symm
        simp [hne]

theorem nodupKeys_setA {K β : Type} [DecidableEq K]
    (l : List (K × β)) (k : K) (v : β) (h : (l.map Prod.fst).Nodup) :
    ((setA l k v).map Prod.fst).Nodup := by
  rw [keys_setA]
  by_cases hs : (lookupA l k).isSome
  · simp [hs, h]
  · have hk : k ∉ l.map Prod.fst :=
      (lookupA_eq_none l k).mp (Option.not_isSome_iff_eq_none.mp hs)
    simp [hs, List.Nodup.append h (List.nodup_singleton k)
      (by simpa [List.disjoint_singleton] using hk)]

theorem sum_setA (l : List (String × Rat)) (k : String) (v : Rat) :
    ((setA l k v).map Prod.snd).sum =
      (l.map Prod.snd).sum + v - (lookupA l k).getD 0 := by
  induction l with
  | nil => simp [setA, lookupA]
  | cons kv l ih =>
      obtain ⟨k', v'⟩ := kv
      by_cases h : k' = k
      · simp [setA, lookupA, h]
        ring
      · simp [setA, lookupA, h, ih]
        ring

theorem assetFold_total (positions : List AggRow)
    (acc : List (String × Rat) × Rat) :
    (positions.foldl assetStep acc).2 = acc.2 + grossTotal positions := by
  induction positions generalizing acc with
  | nil => simp [grossTotal]
  | cons p ps ih =>
      cases hmv : p.mv_ssc_usd with
      | none =>
          simp [List.foldl_cons, assetStep, hmv, ih, grossTotal,
            List.filter_cons]
      | some mv =>
          simp [List.foldl_cons, assetStep, hmv, ih, grossTotal,
            List.filter_cons]
          ring

theorem assetFold_valuesSum (positions : List AggRow)
    (acc : List (String × Rat) × Rat) :
    (((positions.foldl assetStep acc).1).map Prod.snd).sum =
      (acc.1.map Prod.snd).sum + grossTotal positions := by
  induction positions generalizing acc with
  | nil => simp [grossTotal]
  | cons p ps ih =>
      cases hmv : p.mv_ssc_usd with
      | none =>
          simp [List.foldl_cons, assetStep, hmv, ih, grossTotal,
            List.filter_cons]
      | some mv =>
          rw [List.foldl_cons, ih]
          simp only [assetStep, hmv]
          rw [sum_setA]
          simp [grossTotal, List.filter_cons, hmv]
          ring

theorem assetFold_nodupKeys (positions : List AggRow)
    (acc : List (String × Rat) × Rat) (h : (acc.1.map Prod.fst).Nodup) :
    (((positions.foldl assetStep acc).1).map Prod.fst).Nodup := by
  induction positions generalizing acc with
  | nil => exact h
  | cons p ps ih =>
      rw [List.foldl_cons]
      cases hmv : p.mv_ssc_usd with
      | none =>
          have hstep : assetStep acc p = acc := by simp [assetStep, hmv]
          rw [hstep]
          exact ih _ h
      | some mv =>
          apply ih
          simp only [assetStep, hmv]
          exact nodupKeys_setA _ _ _ h

theorem assetFold_lookup (positions : List AggRow)
    (acc : List (String × Rat) × Rat) (t : String) :
    lookupA (positions.foldl assetStep acc).1 t =
      match lookupA acc.1 t with
      | some v => some (v + catSum positions t)
      | none =>
          if hasCat positions t then some (catSum positions t) else none := by
  induction positions generalizing acc with
  | nil => cases h : lookupA acc.1 t <;> simp [catSum, hasCat, h]
  | cons p ps ih =>
      rw [List.foldl_cons]
      cases hmv : p.mv_ssc_usd with
      | none =>
          have hstep : assetStep acc p = acc := by simp [assetStep, hmv]
          rw [hstep, ih]
          simp [catSum, hasCat, List.filter_cons, hmv]
      | some mv =>
          rw [ih]
          by_cases ht : getAssetType p = t
          · have hset :
                lookupA (assetStep acc p).1 t =
                  some ((lookupA acc.1 t).getD 0 + |mv|) := by
              simp only [assetStep, hmv, ht]
              exact lookupA_setA_self _ _ _
            rw [hset]
            cases h : lookupA acc.1 t with
            | none =>
                simp [h, catSum, hasCat, List.filter_cons, hmv, ht]
            | some v =>
                simp [h, catSum, hasCat, List.filter_cons, hmv, ht]
                ring
          · have hset : lookupA (assetStep acc p).1 t = lookupA acc.1 t := by
              simp only [assetStep, hmv]
              exact lookupA_setA_ne _ _ _ _ ht
            rw [hset]
            simp [catSum, hasCat, List.filter_cons, hmv, ht]

theorem perm_insertByMVDesc (x : AssetTypeData) (l : List AssetTypeData) :
    List.Perm (insertByMVDesc x l) (x :: l) := by
  induction l with
  | nil => simp [insertByMVDesc]
  | cons y ys ih =>
      unfold insertByMVDesc
      by_cases h : y.marketValue ≤ x.marketValue
      · simp [h]
      · rw [if_neg h]
        exact (ih.cons y).trans (List.Perm.swap x y ys)

theorem perm_sortByMVDesc (l : List AssetTypeData) :
    List.Perm (sortByMVDesc l) l := by
  induction l with
  | nil => exact List.Perm.refl _
  | cons x xs ih =>
      unfold sortByMVDesc
      rw [List.foldr_cons]
      exact (perm_insertByMVDesc x _).trans (List.Perm.cons x ih)

theorem sum_map_div_mul (l : List Rat) (T : Rat) :
    (l.map fun v => v / T * 100).sum = l.sum / T * 100 := by
  induction l with
  | nil => simp
  | cons a l ih =>
      simp only [List.map_cons, List.sum_cons, ih]
      ring

theorem grossTotal_nonneg (positions : List AggRow) :
    0 ≤ grossTotal positions := by
  unfold grossTotal
  apply List.sum_nonneg
  intro x hx
  obtain ⟨p, _, rfl⟩ := List.mem_map.mp hx
  exact abs_nonneg _

/-- The spec's worked example row: symbol `"CDX.IG 5Y"`, type `"Credit"`. -/
def cdxIGRow : AggRow :=
  { emptyRow with underlying_symbol := some "CDX.IG 5Y", underlying_type := some "Credit" }

/-- A row whose symbol carries both an IG credit marker and an equity
marker. -/
def overlapRow : AggRow :=
  { emptyRow with underlying_symbol := some "cdx.ig vs SPY" }

/-- A row with market value 1 and no classifiable symbol or type. -/
def plainMVRow : AggRow := { emptyRow with mv_ssc_usd := some 1 }

/-- C4: `getAssetType` (the spec's `classifyAssetType`) is a total function
equal to the spec's ordered, short-circuiting, case-insensitive rule chain
(IG markers, then HY markers, then equity markers, then `underlying_type`
containing CREDIT with an IG-then-HY symbol sub-check, then EQUITY, else
`Other`); first match wins, so a symbol carrying both an IG credit marker and
an equity marker is classified `IG`, and `"CDX.IG 5Y"` with `underlying_type`
`"Credit"` is classified `IG`. -/
theorem getAssetType_spec :
    (∀ p : AggRow, getAssetType p = classifyAssetTypeSpec p) ∧
    (∀ p : AggRow,
      (strIncludes (strUpper (p.underlying_symbol.getD "")) "CDX IG" ||
        strIncludes (strUpper (p.underlying_symbol.getD "")) "CDX.IG")
          = true →
      (strIncludes (strUpper (p.underlying_symbol.getD "")) "SPY" ||
        strIncludes (strUpper (p.underlying_symbol.getD "")) "SPX" ||
        strIncludes (strUpper (p.underlying_symbol.getD "")) "S&P") = true →
      getAssetType p = "IG") ∧
    getAssetType cdxIGRow = "IG" := by
  refine ⟨?_, ?_, by decide⟩
  · intro p
    simp only [getAssetType, classifyAssetTypeSpec, ciContains]
    norm_num [show strUpper "CDX IG" = "CDX IG" from by decide,
      show strUpper "CDX.IG" = "CDX.IG" from by decide,
      show strUpper "CDX HY" = "CDX HY" from by decide,
      show strUpper "CDX.HY" = "CDX.HY" from by decide,
      show strUpper "HYG" = "HYG" from by decide,
      show strUpper "SPY" = "SPY" from by decide,
      show strUpper "SPX" = "SPX" from by decide,
      show strUpper "S&P" = "S&P" from by decide,
      show strUpper "CREDIT" = "CREDIT" from by decide,
      show strUpper "EQUITY" = "EQUITY" from by decide,
      show strUpper "IG" = "IG" from by decide,
      show strUpper "HY" = "HY" from by decide]
  · intro p hig _
    simp only [getAssetType]
    rw [if_pos hig]

/-- Witness for C4 at a concrete input: the symbol `"cdx.ig vs SPY"` carries
both an IG credit marker and an equity marker and is classified `IG`. -/
theorem getAssetType_spec_witness : getAssetType overlapRow = "IG" :=
  getAssetType_spec.2.1 overlapRow (by decide) (by decide)

/-- C3: every entry of `aggregateByAssetType` carries the sum of the absolute
market values of the rows with a defined market value classified into its
category (rows with an undefined market value contribute nothing), its
percentage is category sum over gross total times 100 (0 when the gross total
is 0), its color is the fixed lookup, and the percentages sum to 100 whenever
the gross total is nonzero. -/
theorem aggregateByAssetType_spec (positions : List AggRow) :
    (∀ e ∈ aggregateByAssetType positions,
        e.marketValue = catSum positions e.assetType ∧
        e.percentage =
          (if 0 < grossTotal positions
            then e.marketValue / grossTotal positions * 100 else 0) ∧
        e.color = colorOf e.assetType) ∧
    (grossTotal positions ≠ 0 →
      ((aggregateByAssetType positions).map (fun e => e.percentage)).sum
        = 100) := by
  have hacc2 : (positions.foldl assetStep ([], 0)).2 = grossTotal positions := by
    rw [assetFold_total]
    simp
  constructor
  · intro e he
    simp only [aggregateByAssetType] at he
    rw [(perm_sortByMVDesc _).mem_iff] at he
    obtain ⟨kv, hkv, rfl⟩ := List.mem_map.mp he
    have hnd : ((positions.foldl assetStep ([], 0)).1.map Prod.fst).Nodup :=
      assetFold_nodupKeys positions ([], 0) (by simp)
    have hlk : lookupA (positions.foldl assetStep ([], 0)).1 kv.1
        = some kv.2 := mem_lookupA _ kv.1 kv.2 hnd (by simpa using hkv)
    rw [assetFold_lookup] at hlk
    simp only [lookupA] at hlk
    by_cases hc : hasCat positions kv.1
    · rw [if_pos hc] at hlk
      have hv : kv.2 = catSum positions kv.1 :=
        (Option.some.injEq _ _ ▸ hlk).symm
      refine ⟨by simpa using hv, ?_, rfl⟩
      simp only [hacc2]
    · rw [if_neg hc] at hlk
      exact absurd hlk (by simp)
  · intro hT
    have h0 : 0 < grossTotal positions :=
      lt_of_le_of_ne (grossTotal_nonneg _) (Ne.symm hT)
    have hvals :
        ((positions.foldl assetStep ([], 0)).1.map Prod.snd).sum
          = grossTotal positions := by
      rw [assetFold_valuesSum]
      simp
    simp only [aggregateByAssetType]
    rw [((perm_sortByMVDesc _).map (fun e : AssetTypeData => e.percentage)).sum_eq]
    simp only [List.map_map, Function.comp_def, hacc2, h0, ite_true]
    rw [show ((fun kv : String × Rat =>
        kv.2 / grossTotal positions * 100)) =
        ((fun v : Rat => v / grossTotal positions * 100) ∘ Prod.snd) from rfl,
      ← List.map_map, sum_map_div_mul, hvals, div_self hT, one_mul]

/-- Evaluation of `aggregateByAssetType` on the one-row demo list. -/
theorem aggregateByAssetType_demo_eval :
    aggregateByAssetType [plainMVRow] =
      [⟨"Other", 1, 100, "#6b7280"⟩] := by
  have hcat : getAssetType plainMVRow = "Other" := by decide
  simp only [aggregateByAssetType, List.foldl_cons, List.foldl_nil, assetStep,
    show plainMVRow.mv_ssc_usd = some 1 from rfl, hcat, lookupA, setA,
    List.map_cons, List.map_nil, sortByMVDesc, List.foldr_cons,
    List.foldr_nil, insertByMVDesc, colorOf]
  norm_num
  decide

/-- Witness for C3 at a concrete input: a single position with market value 1
and no classifiable symbol lands in `Other` with percentage 100, the
percentages sum to 100, and the entry's market value is the category's gross
sum. -/
theorem aggregateByAssetType_spec_witness :
    ((aggregateByAssetType [plainMVRow]).map (fun e => e.percentage)).sum
        = 100 ∧
    (⟨"Other", 1, 100, "#6b7280"⟩ : AssetTypeData).marketValue =
      catSum [plainMVRow] "Other" := by
  have hmem : (⟨"Other", 1, 100, "#6b7280"⟩ : AssetTypeData) ∈
      aggregateByAssetType [plainMVRow] := by
    rw [aggregateByAssetType_demo_eval]
    exact List.mem_singleton.mpr rfl
  have hT : grossTotal [plainMVRow] ≠ 0 := by
    simp [grossTotal, plainMVRow, emptyRow]
  exact ⟨(aggregateByAssetType_spec [plainMVRow]).2 hT,
    ((aggregateByAssetType_spec [plainMVRow]).1 _ hmem).1⟩

/-! ### Spread consolidation (`AggTable.spreadAggregates`)

The source builds a `Record<string, {...}>` inside a `forEach`: a row
participates iff `row.spread_id && row.is_spread_leg` (JS truthiness: the
empty string and `null`/`undefined` are falsy), creating the aggregate with
zeros and `spread_name: row.spread_name || 'Spread'` on first sight, then
accumulating `mv_ssc_usd || 0`, `pnl_1d_usd || 0`, `pnl_mtd_usd || 0`. -/

structure SpreadAggregate where
  mv_total : Rat
  pnl_1d_total : Rat
  pnl_mtd_total : Rat
  spread_name : String
  deriving Repr, DecidableEq

/-- JS truthiness of `row.spread_id && row.is_spread_leg`. -/
def spreadQualifies (row : AggRow) : Bool :=
  decide (row.spread_id.getD "" ≠ "") && row.is_spread_leg.getD false

/-- JS `row.spread_name || 'Spread'`. -/
def spreadNameOr (o : Option String) : String :=
  match o with
  | some s => if s = "" then "Spread" else s
  | none => "Spread"

/-- One step of the source's `forEach` over rows. -/
def spreadStep (aggregates : List (String × SpreadAggregate)) (row : AggRow) :
    List (String × SpreadAggregate) :=
  if spreadQualifies row then
    let sid := row.spread_id.getD ""
    let base :=
      match lookupA aggregates sid with
      | some a => a
      | none => ⟨0, 0, 0, spreadNameOr row.spread_name⟩
    setA aggregates sid
      ⟨base.mv_total + row.mv_ssc_usd.getD 0,
       base.pnl_1d_total + row.pnl_1d_usd.getD 0,
       base.pnl_mtd_total + row.pnl_mtd_usd.getD 0,
       base.spread_name⟩
  else aggregates

/-- `spreadAggregates` from the aggregate-table component. -/
def spreadAggregates (data : List AggRow) : List (String × SpreadAggregate) :=
  data.foldl spreadStep []

/-- The rows of `data` that participate in the spread aggregate of `sid`. -/
def qualRows (data : List AggRow) (sid : String) : List AggRow :=
  data.filter fun r => spreadQualifies r && decide (r.spread_id.getD "" = sid)

def spreadMVSum (data : List AggRow) (sid : String) : Rat :=
  ((qualRows data sid).map fun r => r.mv_ssc_usd.getD 0).sum

def spreadPnl1dSum (data : List AggRow) (sid : String) : Rat :=
  ((qualRows data sid).map fun r => r.pnl_1d_usd.getD 0).sum

def spreadPnlMtdSum (data : List AggRow) (sid : String) : Rat :=
  ((qualRows data sid).map fun r => r.pnl_mtd_usd.getD 0).sum

/-- Master characterization of the spread fold from an arbitrary
accumulator. -/
theorem spreadFold_lookup (data : List AggRow)
    (acc : List (String × SpreadAggregate)) (sid : String) :
    lookupA (data.foldl spreadStep acc) sid =
      match lookupA acc sid with
      | some a =>
          some ⟨a.mv_total + spreadMVSum data sid,
                a.pnl_1d_total + spreadPnl1dSum data sid,
                a.pnl_mtd_total + spreadPnlMtdSum data sid,
                a.spread_name⟩
      | none =>
          match (qualRows data sid).head? with
          | none => none
          | some r =>
              some ⟨spreadMVSum data sid, spreadPnl1dSum data sid,
                    spreadPnlMtdSum data sid, spreadNameOr r.spread_name⟩ := by
  induction data generalizing acc with
  | nil =>
      cases h : lookupA acc sid with
      | none => simp [qualRows, spreadMVSum, spreadPnl1dSum, spreadPnlMtdSum, h]
      | some a =>
          simp [qualRows, spreadMVSum, spreadPnl1dSum, spreadPnlMtdSum, h]
  | cons r rs ih =>
      rw [List.foldl_cons]
      by_cases hq : spreadQualifies r = true
      · by_cases hsid : r.spread_id.getD "" = sid
        · have hstep : spreadStep acc r =
              setA acc sid
                ⟨((lookupA acc sid).getD
                    ⟨0, 0, 0, spreadNameOr r.spread_name⟩).mv_total +
                  r.mv_ssc_usd.getD 0,
                 ((lookupA acc sid).getD
                    ⟨0, 0, 0, spreadNameOr r.spread_name⟩).pnl_1d_total +
                  r.pnl_1d_usd.getD 0,
                 ((lookupA acc sid).getD
                    ⟨0, 0, 0, spreadNameOr r.spread_name⟩).pnl_mtd_total +
                  r.pnl_mtd_usd.getD 0,
                 ((lookupA acc sid).getD
                    ⟨0, 0, 0, spreadNameOr r.spread_name⟩).spread_name⟩ := by
            simp only [spreadStep, if_pos hq, hsid]
            cases lookupA acc sid <;> rfl
          rw [hstep, ih, lookupA_setA_self]
          have hfilter : qualRows (r :: rs) sid = r :: qualRows rs sid := by
            simp [qualRows, List.filter_cons, hq, hsid]
          cases h : lookupA acc sid with
          | none =>
              simp [hfilter, spreadMVSum, spreadPnl1dSum, spreadPnlMtdSum,
                qualRows, h, List.filter_cons, hq, hsid]
          | some a =>
              simp [hfilter, spreadMVSum, spreadPnl1dSum, spreadPnlMtdSum,
                qualRows, h, List.filter_cons, hq, hsid]
              repeat' apply And.intro
              all_goals (first | rfl | ring)
        · have hlk : lookupA (spreadStep acc r) sid = lookupA acc sid := by
            simp only [spreadStep, if_pos hq]
            exact lookupA_setA_ne _ _ _ _ hsid
          have hfilter : qualRows (r :: rs) sid = qualRows rs sid := by
            simp [qualRows, List.filter_cons, hsid]
          rw [ih, hlk]
          simp only [spreadMVSum, spreadPnl1dSum, spreadPnlMtdSum, hfilter]
      · have hstep : spreadStep acc r = acc := by
          simp [spreadStep, hq]
        have hfilter : qualRows (r :: rs) sid = qualRows rs sid := by
          simp [qualRows, List.filter_cons, hq]
        rw [hstep, ih]
        simp only [spreadMVSum, spreadPnl1dSum, spreadPnlMtdSum, hfilter]

/-- A row with spread_id present but empty, marked as a spread leg. -/
def emptySpreadRow : AggRow :=
  { emptyRow with spread_id := some "", is_spread_leg := some true, mv_ssc_usd := some 100 }

/-- First leg of the spec's S1 example: market value 100. -/
def s1RowA : AggRow :=
  { emptyRow with spread_id := some "S1", is_spread_leg := some true, mv_ssc_usd := some 100, spread_name := some "Box" }

/-- Second leg of the spec's S1 example: market value −40. -/
def s1RowB : AggRow :=
  { emptyRow with spread_id := some "S1", is_spread_leg := some true, mv_ssc_usd := some (-40) }

/-- A spread leg named "Alpha". -/
def nameRowA : AggRow :=
  { emptyRow with spread_id := some "N1", is_spread_leg := some true, spread_name := some "Alpha" }

/-- A later spread leg of the same package named "Beta". -/
def nameRowB : AggRow :=
  { emptyRow with spread_id := some "N1", is_spread_leg := some true, spread_name := some "Beta" }

/-- C5 counterexample: a row whose spread_id is DEFINED (it is `some ""`) and
whose `is_spread_leg` is true is excluded from spread consolidation entirely,
refuting "includes exactly the rows that have both a defined spread_id and
is_spread_leg = true" as literally stated. -/
theorem spreadAggregates_definedId_counterexample :
    emptySpreadRow.spread_id.isSome = true ∧
    emptySpreadRow.is_spread_leg = some true ∧
    spreadAggregates [emptySpreadRow] = [] := by
  refine ⟨rfl, rfl, ?_⟩
  simp [spreadAggregates, spreadStep, spreadQualifies,
    show emptySpreadRow.spread_id = some "" from rfl]

/-- C5 (amended): spread consolidation includes exactly the rows that have a
non-empty spread_id and `is_spread_leg = true`, and for each such spread_id
sums the signed market value, daily PnL, and month-to-date PnL of its
qualifying rows (an undefined metric contributes 0); in particular two
qualifying rows sharing spread_id "S1" with market values 100 and −40 yield
an aggregate mv_total of 60. -/
theorem spreadAggregates_spec (data : List AggRow) (sid : String) :
    (∀ r : AggRow, spreadQualifies r = true ↔
        ((∃ s, r.spread_id = some s ∧ s ≠ "") ∧
          r.is_spread_leg = some true)) ∧
    (lookupA (spreadAggregates data) sid =
      match (qualRows data sid).head? with
      | none => none
      | some r =>
          some ⟨spreadMVSum data sid, spreadPnl1dSum data sid,
                spreadPnlMtdSum data sid, spreadNameOr r.spread_name⟩) ∧
    (lookupA (spreadAggregates [s1RowA, s1RowB]) "S1").map
        SpreadAggregate.mv_total = some 60 := by
  refine ⟨?_, ?_, ?_⟩
  · intro r
    cases hsid : r.spread_id with
    | none => simp [spreadQualifies, hsid]
    | some s =>
        cases hleg : r.is_spread_leg with
        | none => simp [spreadQualifies, hsid, hleg]
        | some b => cases b <;> simp [spreadQualifies, hsid, hleg]
  · rw [spreadAggregates, spreadFold_lookup]
    simp only [lookupA]
  · have hq : qualRows [s1RowA, s1RowB] "S1" = [s1RowA, s1RowB] := by
      simp [qualRows, List.filter, spreadQualifies,
        show s1RowA.spread_id = some "S1" from rfl,
        show s1RowB.spread_id = some "S1" from rfl,
        show s1RowA.is_spread_leg = some true from rfl,
        show s1RowB.is_spread_leg = some true from rfl]
    rw [spreadAggregates, spreadFold_lookup]
    simp only [lookupA, hq, List.head?]
    simp only [Option.map_some, spreadMVSum, hq, List.map_cons, List.map_nil,
      List.sum_cons, List.sum_nil,
      show s1RowA.mv_ssc_usd = some 100 from rfl,
      show s1RowB.mv_ssc_usd = some (-40) from rfl, Option.getD_some]
    norm_num

/-- C9: the consolidated aggregate's spread_name is decided by the first
qualifying row in input iteration order — it is that row's spread_name when
non-null and non-empty and the constant "Spread" otherwise — and the names on
later qualifying rows of the same spread_id never change it. -/
theorem spreadAggregates_name_spec (data : List AggRow) (sid : String)
    (agg : SpreadAggregate)
    (h : lookupA (spreadAggregates data) sid = some agg) :
    (∃ r rs, qualRows data sid = r :: rs ∧
      agg.spread_name = spreadNameOr r.spread_name) ∧
    (∀ s : String, s ≠ "" → spreadNameOr (some s) = s) ∧
    spreadNameOr (some "") = "Spread" ∧ spreadNameOr none = "Spread" := by
  refine ⟨?_, fun s hs => by simp [spreadNameOr, hs], rfl, rfl⟩
  rw [spreadAggregates, spreadFold_lookup] at h
  simp only [lookupA] at h
  cases hl : qualRows data sid with
  | nil => rw [hl] at h; simp at h
  | cons r rs =>
      rw [hl] at h
      simp only [List.head?] at h
      refine ⟨r, rs, rfl, ?_⟩
      cases h
      rfl

/-- Witness for C9 at a concrete input: two qualifying legs of "N1" named
"Alpha" then "Beta" consolidate under the first-seen name "Alpha". -/
theorem spreadAggregates_name_spec_witness :
    ∃ r rs, qualRows [nameRowA, nameRowB] "N1" = r :: rs ∧
      (⟨0, 0, 0, "Alpha"⟩ : SpreadAggregate).spread_name =
        spreadNameOr r.spread_name := by
  have h : lookupA (spreadAggregates [nameRowA, nameRowB]) "N1" =
      some ⟨0, 0, 0, "Alpha"⟩ := by
    simp only [spreadAggregates, List.foldl_cons, List.foldl_nil, spreadStep,
      spreadQualifies, spreadNameOr,
      show nameRowA.spread_id = some "N1" from rfl,
      show nameRowB.spread_id = some "N1" from rfl,
      show nameRowA.is_spread_leg = some true from rfl,
      show nameRowB.is_spread_leg = some true from rfl,
      show nameRowA.spread_name = some "Alpha" from rfl,
      show nameRowA.mv_ssc_usd = none from rfl,
      show nameRowA.pnl_1d_usd = none from rfl,
      show nameRowA.pnl_mtd_usd = none from rfl,
      show nameRowB.mv_ssc_usd = none from rfl,
      show nameRowB.pnl_1d_usd = none from rfl,
      show nameRowB.pnl_mtd_usd = none from rfl,
      lookupA, setA]
    norm_num
    decide
  exact (spreadAggregates_name_spec [nameRowA, nameRowB] "N1"
    ⟨0, 0, 0, "Alpha"⟩ h).1

/-- C10: a row whose spread_id is the empty string fails the truthiness
participation test even when `is_spread_leg = true`, and its presence anywhere
in the data leaves the spread aggregates unchanged — so "defined spread_id"
at the public interface in fact means a non-empty spread_id. -/
theorem spreadAggregates_emptyId_spec (row : AggRow)
    (h : row.spread_id = some "") :
    spreadQualifies row = false ∧
    ∀ data₁ data₂ : List AggRow,
      spreadAggregates (data₁ ++ row :: data₂) =
        spreadAggregates (data₁ ++ data₂) := by
  have hq : spreadQualifies row = false := by
    simp [spreadQualifies, h]
  refine ⟨hq, fun data₁ data₂ => ?_⟩
  simp only [spreadAggregates, List.foldl_append, List.foldl_cons]
  congr 1
  simp [spreadStep, hq]

/-- Witness for C10 at a concrete input: inserting the empty-spread_id row
between two real legs changes nothing. -/
theorem spreadAggregates_emptyId_spec_witness :
    spreadQualifies emptySpreadRow = false ∧
    spreadAggregates ([nameRowA] ++ emptySpreadRow :: [nameRowB]) =
      spreadAggregates ([nameRowA] ++ [nameRowB]) := by
  have h := spreadAggregates_emptyId_spec emptySpreadRow rfl
  exact ⟨h.1, h.2 [nameRowA] [nameRowB]⟩

/-! ### Filter Engine (`App.filteredData`) -/

/-- JS `field?.toLowerCase().includes(query) || false` (the query is already
lowercased by the caller). -/
def optContains (field : Option String) (query : String) : Bool :=
  match field with
  | some s => strIncludes (strLower s) query
  | none => false

/-- The row predicate of `filteredData` in `App.tsx`: family filter, strategy
filter, then free-text search over description, label and id. -/
def rowMatchesFilter (selectedFamily selectedStrategy searchQuery : String)
    (row : AggRow) : Bool :=
  if decide (selectedFamily ≠ "") &&
      decide (row.hedge_family ≠ some selectedFamily) then false
  else if decide (selectedStrategy ≠ "") &&
      decide (row.strategy ≠ some selectedStrategy) then false
  else if decide (searchQuery ≠ "") then
    let query := strLower searchQuery
    optContains row.investment_description query ||
      optContains row.hedge_label query ||
      optContains row.investment_id query
  else true

/-- `filteredData`: the rows admitted by the filter. -/
def filteredData (selectedFamily selectedStrategy searchQuery : String)
    (aggData : List AggRow) : List AggRow :=
  aggData.filter (rowMatchesFilter selectedFamily selectedStrategy searchQuery)

/-- The filter predicate as the spec words it. -/
theorem rowMatchesFilter_iff (fam strat q : String) (row : AggRow) :
    rowMatchesFilter fam strat q row = true ↔
      ((fam = "" ∨ row.hedge_family = some fam) ∧
       (strat = "" ∨ row.strategy = some strat) ∧
       (q = "" ∨
        (∃ s, row.investment_description = some s ∧
          strIncludes (strLower s) (strLower q) = true) ∨
        (∃ s, row.hedge_label = some s ∧
          strIncludes (strLower s) (strLower q) = true) ∨
        (∃ s, row.investment_id = some s ∧
          strIncludes (strLower s) (strLower q) = true))) := by
  cases hdesc : row.investment_description <;>
    cases hlab : row.hedge_label <;>
      cases hid : row.investment_id <;>
        by_cases hf : fam = "" <;>
          by_cases hst : strat = "" <;>
            by_cases hq : q = "" <;>
              simp [rowMatchesFilter, optContains, hdesc, hlab, hid, hf, hst,
                hq] <;>
                tauto

/-- C7: a row is admitted by the Filter Engine iff it is an input row, the
family filter is empty or the row's hedge family exactly equals it, the
strategy filter is empty or the row's strategy exactly equals it, and the
query is empty or is case-insensitively a substring of at least one of the
row's investment description, hedge label, or investment id (a null field
never matches). -/
theorem filteredData_spec (fam strat q : String) (rows : List AggRow)
    (row : AggRow) :
    row ∈ filteredData fam strat q rows ↔
      (row ∈ rows ∧
       (fam = "" ∨ row.hedge_family = some fam) ∧
       (strat = "" ∨ row.strategy = some strat) ∧
       (q = "" ∨
        (∃ s, row.investment_description = some s ∧
          strIncludes (strLower s) (strLower q) = true) ∨
        (∃ s, row.hedge_label = some s ∧
          strIncludes (strLower s) (strLower q) = true) ∨
        (∃ s, row.investment_id = some s ∧
          strIncludes (strLower s) (strLower q) = true))) := by
  rw [filteredData, List.mem_filter, rowMatchesFilter_iff]

/-! ### Basis-point normalization (`format.formatBasisPoints`)

The source's `formatBasisPoints` returns the string `'-'` when the value is
null/undefined (or NaN, which has no counterpart in an exact-rational
embedding) or when the reference total is exactly zero, and otherwise formats
`(value / portfolioTotal) * 10000`.  `toBasisPoints` is its numeric core,
with `'-'` modelled as `none`. -/

def toBasisPoints (value : Option Rat) (referenceTotal : Rat) : Option Rat :=
  match value with
  | none => none
  | some v =>
      if referenceTotal = 0 then none
      else some (v / referenceTotal * 10000)

/-- C8: `toBasisPoints` returns (value / referenceTotal) × 10,000 when the
value is defined and the reference total is nonzero, and an explicit
non-computable `none` (never `some 0`, and infinity is unrepresentable) when
the value is undefined or the reference total is exactly zero; in particular
150 against 1,000,000 gives 1.5 bps and 150 against 0 is not computable. -/
theorem toBasisPoints_spec (v : Rat) (ref : Rat) (h : ref ≠ 0) :
    toBasisPoints (some v) ref = some (v / ref * 10000) ∧
    toBasisPoints (some v) 0 = none ∧
    (∀ r : Rat, toBasisPoints none r = none) ∧
    toBasisPoints (some 150) 1000000 = some (3 / 2) ∧
    toBasisPoints (some 150) 0 = none := by
  refine ⟨by simp [toBasisPoints, h], by simp [toBasisPoints],
    fun r => rfl, ?_, by simp [toBasisPoints]⟩
  simp only [toBasisPoints]
  norm_num

/-- Witness for C8 at concrete inputs. -/
theorem toBasisPoints_spec_witness :
    toBasisPoints (some 150) 1000000 = some (150 / 1000000 * 10000) ∧
    toBasisPoints (some 150) 0 = none :=
  ⟨(toBasisPoints_spec 150 1000000 (by norm_num)).1,
   (toBasisPoints_spec 150 1000000 (by norm_num)).2.2.2.2⟩

/-! ### Rollup Builder (spec §4.5)

The Rollup Builder and the upstream service that supplies the authoritative
rollup are not part of the repository's source (only the `RollupHeader` type
in `api/types.ts`, its fetch, and its display are), so both sides of the
compatibility requirement are modelled from the spec.  The shapes follow
`api/types.ts` (`GroupedMetrics`, `Totals`, `RollupHeader`). -/

structure GroupedMetrics where
  mv_ssc_usd : Rat
  pnl_1d_usd : Rat
  pnl_mtd_usd : Rat
  position_count : Nat
  deriving Repr, DecidableEq

structure Totals where
  total_mv_ssc_usd : Rat
  total_dv01_usd : Rat
  total_pnl_1d_usd : Rat
  total_pnl_mtd_usd : Rat
  total_long_mv : Rat
  total_short_mv : Rat
  row_count : Nat
  total_beta_spx : Option Rat
  total_delta_spx : Option Rat
  total_vega_spx : Option Rat
  deriving Repr, DecidableEq

structure RollupHeader where
  totals : Totals
  by_family : List (String × GroupedMetrics)
  by_strategy : List (String × GroupedMetrics)
  by_family_and_strategy : List ((String × String) × GroupedMetrics)
  deriving Repr, DecidableEq

/-- Grouping key for the by-family view: rows with a null family are
excluded. -/
def famKey (row : AggRow) : Option String := row.hedge_family

/-- Grouping key for the by-strategy view. -/
def stratKey (row : AggRow) : Option String := row.strategy

/-- Grouping key for the by-family-and-strategy view: a row missing either
key is excluded. -/
def famStratKey (row : AggRow) : Option (String × String) :=
  match row.hedge_family, row.strategy with
  | some f, some s => some (f, s)
  | _, _ => none

/-- One accumulation step of a grouped view: the row's four `GroupedMetrics`
fields are added to its key's bucket (undefined numeric fields contribute 0),
buckets appearing in first-seen order. -/
def groupStep {K : Type} [DecidableEq K] (key : AggRow → Option K)
    (acc : List (K × GroupedMetrics)) (row : AggRow) :
    List (K × GroupedMetrics) :=
  match key row with
  | none => acc
  | some k =>
      let base := (lookupA acc k).getD ⟨0, 0, 0, 0⟩
      setA acc k
        ⟨base.mv_ssc_usd + row.mv_ssc_usd.getD 0,
         base.pnl_1d_usd + row.pnl_1d_usd.getD 0,
         base.pnl_mtd_usd + row.pnl_mtd_usd.getD 0,
         base.position_count + 1⟩

/-- The distinct non-null key values of `rows`, in first-seen order. -/
def firstSeenKeys {K : Type} [DecidableEq K] (key : AggRow → Option K)
    (rows : List AggRow) : List K :=
  rows.foldl
    (fun ks row =>
      match key row with
      | none => ks
      | some k => if k ∈ ks then ks else ks ++ [k]) []

/-- The rows carrying key value `k`. -/
def rowsWithKey {K : Type} [DecidableEq K] (key : AggRow → Option K)
    (rows : List AggRow) (k : K) : List AggRow :=
  rows.filter fun r => decide (key r = some k)

/-- The `GroupedMetrics` of a row subset: summed market value, summed daily
and month-to-date PnL, and the count of contributing positions. -/
def metricsFor (rows : List AggRow) : GroupedMetrics :=
  ⟨(rows.map fun r => r.mv_ssc_usd.getD 0).sum,
   (rows.map fun r => r.pnl_1d_usd.getD 0).sum,
   (rows.map fun r => r.pnl_mtd_usd.getD 0).sum,
   rows.length⟩

/-- A grouped view computed multi-pass: one `GroupedMetrics` per distinct
non-null key, in first-seen order, each summed over the rows sharing that
key. -/
def groupMulti {K : Type} [DecidableEq K] (key : AggRow → Option K)
    (rows : List AggRow) : List (K × GroupedMetrics) :=
  (firstSeenKeys key rows).map fun k => (k, metricsFor (rowsWithKey key rows k))

/-- `optAdd acc x`: a defined metric joins the optional running sum; an
undefined one leaves it untouched, so the total stays `none` (unknown, not
zero) until some row defines the metric. -/
def optAdd : Option Rat → Option Rat → Option Rat
  | acc, none => acc
  | none, some x => some x
  | some a, some x => some (a + x)

/-- The optional total of a metric over `rows`: `none` when no row defines
it, otherwise the sum over the rows that do. -/
def optSum (l : List Rat) : Option Rat :=
  match l with
  | [] => none
  | _ => some l.sum

/-- One accumulation step of the grand totals. -/
def totalsStep (t : Totals) (row : AggRow) : Totals :=
  ⟨t.total_mv_ssc_usd + row.mv_ssc_usd.getD 0,
   t.total_dv01_usd + row.dv01_usd.getD 0,
   t.total_pnl_1d_usd + row.pnl_1d_usd.getD 0,
   t.total_pnl_mtd_usd + row.pnl_mtd_usd.getD 0,
   t.total_long_mv + row.long_mv.getD 0,
   t.total_short_mv + row.short_mv.getD 0,
   t.row_count + 1,
   optAdd t.total_beta_spx row.beta_spx,
   optAdd t.total_delta_spx row.delta_spx,
   optAdd t.total_vega_spx row.vega_spx⟩

/-- The grand totals computed multi-pass: each numeric field summed with
undefined values contributing 0, `row_count` the total number of rows, and
the optional beta/delta/vega totals summed only over rows defining them and
left `none` when no row does. -/
def totalsMulti (rows : List AggRow) : Totals :=
  ⟨(rows.map fun r => r.mv_ssc_usd.getD 0).sum,
   (rows.map fun r => r.dv01_usd.getD 0).sum,
   (rows.map fun r => r.pnl_1d_usd.getD 0).sum,
   (rows.map fun r => r.pnl_mtd_usd.getD 0).sum,
   (rows.map fun r => r.long_mv.getD 0).sum,
   (rows.map fun r => r.short_mv.getD 0).sum,
   rows.length,
   optSum (rows.filterMap fun r => r.beta_spx),
   optSum (rows.filterMap fun r => r.delta_spx),
   optSum (rows.filterMap fun r => r.vega_spx)⟩

/-- Modelled from the spec: the engine's Rollup Builder (§4.5), absent from
the repository's source, computing the grand totals and the three grouped
views in one pass over the full row set. -/
def buildRollupHeader (rows : List AggRow) : RollupHeader :=
  ⟨rows.foldl totalsStep ⟨0, 0, 0, 0, 0, 0, 0, none, none, none⟩,
   rows.foldl (groupStep famKey) [],
   rows.foldl (groupStep stratKey) [],
   rows.foldl (groupStep famStratKey) []⟩

/-- Modelled from the spec: the externally supplied rollup (§6), produced by
the upstream source of truth from the same raw rows per §4.5, here in the
equivalent multi-pass formulation the spec allows. -/
def externalRollupHeader (rows : List AggRow) : RollupHeader :=
  ⟨totalsMulti rows,
   groupMulti famKey rows,
   groupMulti stratKey rows,
   groupMulti famStratKey rows⟩

/-! ### Lemmas: the one-pass and multi-pass rollups agree -/

theorem lookupA_isSome_iff_mem {K β : Type} [DecidableEq K]
    (l : List (K × β)) (k : K) :
    (lookupA l k).isSome ↔ k ∈ l.map Prod.fst := by
  rw [← Option.ne_none_iff_isSome]
  constructor
  · intro h
    by_contra hmem
    exact h ((lookupA_eq_none l k).mpr hmem)
  · intro hmem h
    exact (lookupA_eq_none l k).mp h hmem

theorem assoc_ext {K β : Type} [DecidableEq K] (l₁ : List (K × β)) :
    ∀ l₂ : List (K × β),
      l₁.map Prod.fst = l₂.map Prod.fst → (l₁.map Prod.fst).Nodup →
      (∀ k, lookupA l₁ k = lookupA l₂ k) → l₁ = l₂ := by
  induction l₁ with
  | nil =>
      intro l₂ hkeys _ _
      cases l₂ with
      | nil => rfl
      | cons kv t => simp at hkeys
  | cons kv t₁ ih =>
      obtain ⟨k₁, v₁⟩ := kv
      intro l₂ hkeys hnd hlk
      cases l₂ with
      | nil => simp at hkeys
      | cons kv₂ t₂ =>
          obtain ⟨k₂, v₂⟩ := kv₂
          simp only [List.map_cons, List.cons.injEq] at hkeys
          obtain ⟨hk, hkeys2⟩ := hkeys
          subst hk
          simp only [List.map_cons, List.nodup_cons] at hnd
          have hv : v₁ = v₂ := by
            have h := hlk k₁
            simpa [lookupA] using h
          subst hv
          have hk1 : k₁ ∉ t₁.map Prod.fst := hnd.1
          have hk2 : k₁ ∉ t₂.map Prod.fst := hkeys2 ▸ hk1
          have hlk2 : ∀ k, lookupA t₁ k = lookupA t₂ k := by
            intro k
            by_cases hkk : k₁ = k
            · subst hkk
              rw [(lookupA_eq_none t₁ k₁).mpr hk1,
                (lookupA_eq_none t₂ k₁).mpr hk2]
            · have h := hlk k
              simpa [lookupA, hkk] using h
          rw [ih t₂ hkeys2 hnd.2 hlk2]

/-- One step of the key-discovery fold. -/
def keyStep {K : Type} [DecidableEq K] (key : AggRow → Option K)
    (ks : List K) (row : AggRow) : List K :=
  match key row with
  | none => ks
  | some k => if k ∈ ks then ks else ks ++ [k]

theorem firstSeenKeys_eq_foldl {K : Type} [DecidableEq K]
    (key : AggRow → Option K) (rows : List AggRow) :
    firstSeenKeys key rows = rows.foldl (keyStep key) [] := rfl

theorem groupFold_keys {K : Type} [DecidableEq K] (key : AggRow → Option K)
    (rows : List AggRow) :
    ∀ acc : List (K × GroupedMetrics),
      ((rows.foldl (groupStep key) acc).map Prod.fst) =
        rows.foldl (keyStep key) (acc.map Prod.fst) := by
  induction rows with
  | nil => intro acc; rfl
  | cons r rs ih =>
      intro acc
      rw [List.foldl_cons, List.foldl_cons, ih]
      congr 1
      cases hk : key r with
      | none => simp [groupStep, keyStep, hk]
      | some k =>
          simp only [groupStep, keyStep, hk, keys_setA]
          by_cases hmem : k ∈ acc.map Prod.fst
          · rw [if_pos ((lookupA_isSome_iff_mem acc k).mpr hmem), if_pos hmem]
          · rw [if_neg (fun hs => hmem ((lookupA_isSome_iff_mem acc k).mp hs)),
              if_neg hmem]

theorem keyFold_nodup {K : Type} [DecidableEq K] (key : AggRow → Option K)
    (rows : List AggRow) :
    ∀ ks : List K, ks.Nodup → (rows.foldl (keyStep key) ks).Nodup := by
  induction rows with
  | nil => intro ks h; exact h
  | cons r rs ih =>
      intro ks h
      rw [List.foldl_cons]
      apply ih
      cases hk : key r with
      | none => simpa [keyStep, hk] using h
      | some k =>
          simp only [keyStep, hk]
          by_cases hmem : k ∈ ks
          · rwa [if_pos hmem]
          · rw [if_neg hmem]
            exact List.Nodup.append h (List.nodup_singleton k)
              (by simpa [List.disjoint_singleton] using hmem)

theorem mem_keyFold {K : Type} [DecidableEq K] (key : AggRow → Option K)
    (rows : List AggRow) :
    ∀ (ks : List K) (k : K),
      k ∈ rows.foldl (keyStep key) ks ↔
        k ∈ ks ∨ ∃ r ∈ rows, key r = some k := by
  induction rows with
  | nil => intro ks k; simp
  | cons r rs ih =>
      intro ks k
      rw [List.foldl_cons, ih]
      cases hk : key r with
      | none =>
          simp only [keyStep, hk, List.mem_cons]
          constructor
          · rintro (h | ⟨r2, hr2, hkr2⟩)
            · exact Or.inl h
            · exact Or.inr ⟨r2, Or.inr hr2, hkr2⟩
          · rintro (h | ⟨r2, (rfl | hr2), hkr2⟩)
            · exact Or.inl h
            · rw [hk] at hkr2; cases hkr2
            · exact Or.inr ⟨r2, hr2, hkr2⟩
      | some k2 =>
          simp only [keyStep, hk]
          by_cases hmem : k2 ∈ ks
          · rw [if_pos hmem]
            constructor
            · rintro (h | ⟨r2, hr2, hkr2⟩)
              · exact Or.inl h
              · exact Or.inr ⟨r2, List.mem_cons_of_mem r hr2, hkr2⟩
            · rintro (h | ⟨r2, hr2, hkr2⟩)
              · exact Or.inl h
              · rcases List.mem_cons.mp hr2 with rfl | hr2
                · rw [hk] at hkr2
                  cases hkr2
                  exact Or.inl hmem
                · exact Or.inr ⟨r2, hr2, hkr2⟩
          · rw [if_neg hmem]
            constructor
            · rintro (h | ⟨r2, hr2, hkr2⟩)
              · rcases List.mem_append.mp h with h | h
                · exact Or.inl h
                · rcases List.mem_singleton.mp h with rfl
                  exact Or.inr ⟨r, List.mem_cons_self r rs, hk⟩
              · exact Or.inr ⟨r2, List.mem_cons_of_mem r hr2, hkr2⟩
            · rintro (h | ⟨r2, hr2, hkr2⟩)
              · exact Or.inl (List.mem_append.mpr (Or.inl h))
              · rcases List.mem_cons.mp hr2 with rfl | hr2
                · rw [hk] at hkr2
                  cases hkr2
                  exact Or.inl (List.mem_append.mpr (Or.inr (by simp)))
                · exact Or.inr ⟨r2, hr2, hkr2⟩

theorem lookupA_graph {K β : Type} [DecidableEq K] (ks : List K) (f : K → β)
    (k : K) :
    lookupA (ks.map fun x => (x, f x)) k =
      if k ∈ ks then some (f k) else none := by
  induction ks with
  | nil => simp [lookupA]
  | cons k2 ks ih =>
      by_cases h : k2 = k
      · subst h
        simp [lookupA]
      · simp only [List.map_cons, lookupA, if_neg h, ih, List.mem_cons]
        by_cases hmem : k ∈ ks
        · rw [if_pos hmem, if_pos (Or.inr hmem)]
        · rw [if_neg hmem, if_neg (by
            rintro (rfl | hc)
            · exact h rfl
            · exact hmem hc)]

theorem groupFold_lookup {K : Type} [DecidableEq K] (key : AggRow → Option K)
    (rows : List AggRow) :
    ∀ (acc : List (K × GroupedMetrics)) (k : K),
      lookupA (rows.foldl (groupStep key) acc) k =
        match lookupA acc k with
        | some g =>
            some ⟨g.mv_ssc_usd +
                    (metricsFor (rowsWithKey key rows k)).mv_ssc_usd,
                  g.pnl_1d_usd +
                    (metricsFor (rowsWithKey key rows k)).pnl_1d_usd,
                  g.pnl_mtd_usd +
                    (metricsFor (rowsWithKey key rows k)).pnl_mtd_usd,
                  g.position_count +
                    (metricsFor (rowsWithKey key rows k)).position_count⟩
        | none =>
            if rowsWithKey key rows k = [] then none
            else some (metricsFor (rowsWithKey key rows k)) := by
  induction rows with
  | nil =>
      intro acc k
      cases h : lookupA acc k <;> simp [rowsWithKey, metricsFor, h]
  | cons r rs ih =>
      intro acc k
      rw [List.foldl_cons]
      cases hk : key r with
      | none =>
          have hstep : groupStep key acc r = acc := by
            simp [groupStep, hk]
          have hfilter : rowsWithKey key (r :: rs) k = rowsWithKey key rs k := by
            simp [rowsWithKey, List.filter_cons, hk]
          rw [hstep, ih, hfilter]
      | some k2 =>
          by_cases hkk : k2 = k
          · subst hkk
            have hstep : groupStep key acc r =
                setA acc k2
                  ⟨((lookupA acc k2).getD ⟨0, 0, 0, 0⟩).mv_ssc_usd +
                      r.mv_ssc_usd.getD 0,
                   ((lookupA acc k2).getD ⟨0, 0, 0, 0⟩).pnl_1d_usd +
                      r.pnl_1d_usd.getD 0,
                   ((lookupA acc k2).getD ⟨0, 0, 0, 0⟩).pnl_mtd_usd +
                      r.pnl_mtd_usd.getD 0,
                   ((lookupA acc k2).getD ⟨0, 0, 0, 0⟩).position_count + 1⟩ := by
              simp only [groupStep, hk]
            have hfilter : rowsWithKey key (r :: rs) k2 =
                r :: rowsWithKey key rs k2 := by
              simp [rowsWithKey, List.filter_cons, hk]
            rw [hstep, ih, lookupA_setA_self, hfilter]
            cases h : lookupA acc k2 with
            | none =>
                simp [h, metricsFor]
                repeat' apply And.intro
                all_goals (first | rfl | ring)
            | some g =>
                simp [h, metricsFor]
                repeat' apply And.intro
                all_goals (first | rfl | ring)
          · have hlk : lookupA (groupStep key acc r) k = lookupA acc k := by
              simp only [groupStep, hk]
              exact lookupA_setA_ne _ _ _ _ hkk
            have hfilter : rowsWithKey key (r :: rs) k = rowsWithKey key rs k := by
              simp [rowsWithKey, List.filter_cons, hk, hkk]
            rw [ih, hlk, hfilter]

theorem group_equiv {K : Type} [DecidableEq K] (key : AggRow → Option K)
    (rows : List AggRow) :
    rows.foldl (groupStep key) [] = groupMulti key rows := by
  apply assoc_ext
  · rw [groupFold_keys key rows []]
    simp [groupMulti, List.map_map, Function.comp_def, firstSeenKeys_eq_foldl]
  · rw [groupFold_keys key rows []]
    exact keyFold_nodup key rows [] List.nodup_nil
  · intro k
    rw [groupFold_lookup key rows [] k]
    simp only [lookupA]
    rw [groupMulti, lookupA_graph]
    by_cases hmem : k ∈ firstSeenKeys key rows
    · rw [if_pos hmem]
      have hne : rowsWithKey key rows k ≠ [] := by
        rcases (mem_keyFold key rows [] k).mp
            (by rwa [firstSeenKeys_eq_foldl] at hmem) with h | ⟨r, hr, hkr⟩
        · simp at h
        · intro hnil
          have hmem2 : r ∈ rowsWithKey key rows k := by
            simp [rowsWithKey, List.mem_filter, hr, hkr]
          rw [hnil] at hmem2
          simp at hmem2
      rw [if_neg hne]
    · rw [if_neg hmem]
      have hnil : rowsWithKey key rows k = [] := by
        by_contra hne
        obtain ⟨r, hr⟩ := List.exists_mem_of_ne_nil _ hne
        obtain ⟨hrr, hkr⟩ := List.mem_filter.mp hr
        exact hmem (by
          rw [firstSeenKeys_eq_foldl]
          exact (mem_keyFold key rows [] k).mpr
            (Or.inr ⟨r, hrr, by simpa using hkr⟩))
      rw [if_pos hnil]

/-- The optional total of a metric after folding from `acc` over the listed
defined values. -/
def optAccum (acc : Option Rat) (l : List Rat) : Option Rat :=
  match acc with
  | some a => some (a + l.sum)
  | none => optSum l

theorem optAccum_nil (a : Option Rat) : optAccum a [] = a := by
  cases a <;> simp [optAccum, optSum]

theorem optAccum_filterMap_cons (a : Option Rat) (g : AggRow → Option Rat)
    (r : AggRow) (rs : List AggRow) :
    optAccum (optAdd a (g r)) (rs.filterMap g) =
      optAccum a ((r :: rs).filterMap g) := by
  rw [List.filterMap_cons]
  cases hg : g r <;> cases a <;>
    simp [optAdd, optAccum, optSum] <;> ring

theorem totalsFold (rows : List AggRow) :
    ∀ t : Totals,
      rows.foldl totalsStep t =
        ⟨t.total_mv_ssc_usd + (rows.map fun r => r.mv_ssc_usd.getD 0).sum,
         t.total_dv01_usd + (rows.map fun r => r.dv01_usd.getD 0).sum,
         t.total_pnl_1d_usd + (rows.map fun r => r.pnl_1d_usd.getD 0).sum,
         t.total_pnl_mtd_usd + (rows.map fun r => r.pnl_mtd_usd.getD 0).sum,
         t.total_long_mv + (rows.map fun r => r.long_mv.getD 0).sum,
         t.total_short_mv + (rows.map fun r => r.short_mv.getD 0).sum,
         t.row_count + rows.length,
         optAccum t.total_beta_spx (rows.filterMap fun r => r.beta_spx),
         optAccum t.total_delta_spx (rows.filterMap fun r => r.delta_spx),
         optAccum t.total_vega_spx (rows.filterMap fun r => r.vega_spx)⟩ := by
  induction rows with
  | nil =>
      intro t
      simp [optAccum_nil]
  | cons r rs ih =>
      intro t
      rw [List.foldl_cons, ih]
      simp only [totalsStep, List.map_cons, List.sum_cons, List.length_cons,
        optAccum_filterMap_cons, Totals.mk.injEq]
      repeat' apply And.intro
      all_goals ring

/-- C6: the engine's Rollup Builder, recomputing from the raw rows, produces
a `RollupHeader` equal — hence byte-for-byte equal in the grand totals and in
the by-family, by-strategy, and by-family-and-strategy grouped views — to the
externally supplied `RollupHeader` built from the same rows. -/
theorem rollupHeader_equiv (rows : List AggRow) :
    buildRollupHeader rows = externalRollupHeader rows := by
  unfold buildRollupHeader externalRollupHeader
  rw [totalsFold]
  simp only [RollupHeader.mk.injEq]
  refine ⟨?_, group_equiv famKey rows, group_equiv stratKey rows,
    group_equiv famStratKey rows⟩
  simp [totalsMulti, optAccum]

end Blotter
